import Mathlib

/-!
Shallow embedding of the audio feature-extraction pipeline
(`src/core/audio_processing.py`, `AudioProcessor.run`) and the beat/pulse
state machine (`src/core/kaleidoscope_engine.py`, `detect_beat` /
`update_pulse`) of the kaleidoscope repository, together with proofs of
the specification's claims about them.

Float values of the audio pipeline are modelled as `Option ℝ` where `none`
stands for NaN (the only non-finite value reachable from bounded int16
input); the beat/pulse tracker is modelled over an arbitrary linear ordered
field so that it can be run on `ℚ` (decidable, for concrete witnesses) and
on `ℝ` (to compose with the pipeline).
-/

namespace Kaleidoscope

/-! ### Beat and pulse tracker (kaleidoscope_engine.py) -/

/-- State of `KaleidoscopeEngine` relevant to beat detection and the pulse
envelope: `beat_history`, `prev_bass`, `beat_cooldown`, `is_beat`,
`enable_pulse`, `current_pulse`, `target_pulse`, `pulse_strength`,
`pulse_attack`, `pulse_decay`. -/
structure BeatState (α : Type) where
  history : List α
  prevBass : α
  cooldown : ℤ
  isBeat : Bool
  enablePulse : Bool
  currentPulse : α
  targetPulse : α
  pulseStrength : α
  pulseAttack : α
  pulseDecay : α

variable {α : Type} [LinearOrderedField α]

/-- History update `self.beat_history.append(bass); if len > 30: pop(0)`: append at the
tail, evict the oldest (head) when the capacity 30 is exceeded. -/
def trimHist (l : List α) : List α :=
  if 30 < l.length then l.tail else l

/-- First part of `KaleidoscopeEngine.detect_beat` (lines 200-221): append the
current bass energy to the history, evict the oldest sample past capacity 30,
and, when more than 5 samples are present, compare the bass energy against the
dynamic threshold `avg_bass * 1.5`. -/
def detectPhase (s : BeatState α) (bass : α) : BeatState α :=
  let hist := trimHist (s.history ++ [bass])
  if 5 < hist.length then
    let avg := hist.sum / (hist.length : α)
    if bass > avg * (3 / 2) ∧ bass > s.prevBass ∧ s.cooldown ≤ 0 then
      { s with history := hist, isBeat := true, cooldown := 10,
               targetPulse :=
                 if s.enablePulse then
                   min 2 (1 + (bass / avg - 1) * s.pulseStrength)
                 else s.targetPulse }
    else
      { s with history := hist, isBeat := false }
  else
    { s with history := hist }

/-- Second part of `detect_beat` (lines 223-225): `if self.beat_cooldown > 0:
self.beat_cooldown -= 1`. -/
def cooldownPhase (s : BeatState α) : BeatState α :=
  if 0 < s.cooldown then { s with cooldown := s.cooldown - 1 } else s

/-- Embedding of `KaleidoscopeEngine.detect_beat` (lines 196-227): threshold
test, cooldown decrement, then `self.prev_bass = bass`. -/
def detectBeat (s : BeatState α) (bass : α) : BeatState α :=
  { cooldownPhase (detectPhase s bass) with prevBass := bass }

/-- Embedding of `KaleidoscopeEngine.update_pulse` (lines 229-246). -/
def updatePulse (s : BeatState α) : BeatState α :=
  if s.enablePulse then
    let c :=
      if s.currentPulse < s.targetPulse then
        s.currentPulse + (s.targetPulse - s.currentPulse) * s.pulseAttack
      else
        s.currentPulse + (1 - s.currentPulse) * s.pulseDecay
    if |c - 1| < 1 / 20 then { s with currentPulse := 1, targetPulse := 1 }
    else { s with currentPulse := c }
  else
    { s with currentPulse := 1 }

/-- One audio-frame update of the engine's beat/pulse machinery:
`KaleidoscopeEngine.update` calls `detect_beat` then `update_pulse`. -/
def engineStep (s : BeatState α) (bass : α) : BeatState α :=
  updatePulse (detectBeat s bass)

/-- States reached along a sequence of bass inputs. -/
def runStates (s : BeatState α) : List α → List (BeatState α)
  | [] => []
  | b :: bs => engineStep s b :: runStates (engineStep s b) bs

/-- The engine's initial beat/pulse state (`__init__`, lines 65-80). -/
def initBeat (α : Type) [LinearOrderedField α] : BeatState α :=
  { history := [], prevBass := 0, cooldown := 0, isBeat := false,
    enablePulse := true, currentPulse := 1, targetPulse := 1,
    pulseStrength := 1, pulseAttack := 1 / 10, pulseDecay := 1 / 5 }

/-- A state with a flat bass history at value 1 for 10 frames, no cooldown,
used to witness the beat-trigger and debounce claims. -/
def flatHistState : BeatState ℚ :=
  { history := List.replicate 10 1, prevBass := 1, cooldown := 0, isBeat := false,
    enablePulse := true, currentPulse := 1, targetPulse := 1,
    pulseStrength := 1, pulseAttack := 1 / 10, pulseDecay := 1 / 5 }

/-- The beat/pulse state right after a beat has set `target_pulse` to 1.8
with `current_pulse` still at the rest value 1.0 — the situation the claim
describes, with the default attack 0.1 and decay 0.2. -/
def postBeatState : BeatState ℚ :=
  { history := List.replicate 10 1 ++ [8/5], prevBass := 8/5, cooldown := 9,
    isBeat := true, enablePulse := true, currentPulse := 1, targetPulse := 9/5,
    pulseStrength := 1, pulseAttack := 1 / 10, pulseDecay := 1 / 5 }

/-! ### Audio feature pipeline (audio_processing.py) -/

/-- A floating-point value of the pipeline; `none` models NaN, the only
non-finite value reachable from bounded int16 input. -/
abbrev FV := Option ℝ

/-- Multiplication of a float by a finite scalar (NaN propagates). -/
def fvMul (p : FV) (c : ℝ) : FV := p.map (fun x => x * c)

/-- Addition of two floats (NaN propagates). -/
def fvAdd (p q : FV) : FV :=
  match p, q with
  | some a, some b => some (a + b)
  | _, _ => none

/-- Embedding of `np.nan_to_num`: replace a non-finite value by 0. -/
def nanToNum (v : FV) : FV := some (v.getD 0)

/-- Embedding of `np.mean`: NaN on an empty array, NaN if any element is NaN, otherwise
the arithmetic mean. -/
noncomputable def fvMean (l : List FV) : FV :=
  if l.isEmpty || l.any (fun v => v.isNone) then none
  else some ((l.map (fun v => v.getD 0)).sum / (l.length : ℝ))

/-- Wrap an integer into the signed 16-bit range, as numpy int16 arithmetic
does on overflow. -/
def wrap16 (z : ℤ) : ℤ := (z + 32768) % 65536 - 32768

/-- Embedding of `np.mean(data**2)` for an int16 buffer (line 54): the squares are
computed in int16 arithmetic (wraparound, possibly negative) before the
float mean; the mean itself is exact. -/
def msqQ (d : List ℤ) : ℚ :=
  (((d.map (fun x => wrap16 (x * x))).sum : ℤ) : ℚ) / (d.length : ℚ)

/-- Embedding of `np.sqrt(np.mean(data**2)) / 32768.0 * self.sensitivity` (line 54):
NaN when the wrapped mean of squares is negative. -/
noncomputable def instVol (d : List ℤ) (sens : ℝ) : FV :=
  if 0 ≤ msqQ d then some (Real.sqrt ((msqQ d : ℝ)) / 32768 * sens) else none

/-- Normalized samples `data / 32768.0` (line 63). -/
noncomputable def normData (d : List ℤ) : List ℝ :=
  d.map (fun (z : ℤ) => (z : ℝ) / 32768)

/-- One coefficient of the discrete Fourier transform that `np.fft.rfft`
computes. -/
noncomputable def dftCoeff (x : List ℝ) (k : ℕ) : ℂ :=
  ∑ n ∈ Finset.range x.length,
    ((x.getD n 0 : ℝ) : ℂ)
      * Complex.exp (-(2 * Real.pi * Complex.I * (k : ℂ) * (n : ℂ)) / (x.length : ℂ))

/-- Embedding of `np.abs(np.fft.rfft(x))`: magnitudes of the first `len/2 + 1` DFT
coefficients of a real-valued input (line 63). -/
noncomputable def rfftMag (x : List ℝ) : List ℝ :=
  (List.range (x.length / 2 + 1)).map (fun k => Complex.abs (dftCoeff x k))

/-- Elementwise blend `fft_data = prev_fft * smoothing + fft * (1 - smoothing) * sensitivity`
elementwise (line 69); the instantaneous magnitude is a genuine (finite)
real number, the stored previous spectrum may in principle hold NaN. -/
def fvBlend (s sens : ℝ) (p : FV) (x : ℝ) : FV :=
  fvAdd (fvMul p s) (some (x * (1 - s) * sens))

/-- Elementwise blend of the previous spectrum with the new magnitudes. -/
def blendList (s sens : ℝ) (prev : List FV) (inst : List ℝ) : List FV :=
  List.zipWith (fvBlend s sens) prev inst

/-- Defensive resize (lines 66-67): `if len(fft) != len(prev_fft):
self.prev_fft = np.zeros_like(fft)`. -/
def resizePrev (inst : List ℝ) (prev : List FV) : List FV :=
  if inst.length ≠ prev.length then List.replicate inst.length (some 0) else prev

/-- The per-cycle output emitted on the `audio_data` signal (spectrum slice,
three band energies, volume), lines 76-89. -/
structure Frame where
  spectrum : List FV
  bass : FV
  mids : FV
  highs : FV
  volume : FV

/-- The processor's persistent smoothing state: `prev_fft`, `prev_volume`
(lines 27-29). -/
structure SmoothState where
  prevFft : List FV
  prevVol : FV

/-- One loop iteration of `AudioProcessor.run` (lines 42-89) on a non-empty
buffer `d` of int16 samples: RMS volume with exponential smoothing (lines
53-59), FFT magnitude blend, store, and NaN sanitization (lines 62-73), band
means and spectrum slice with their own sanitization (lines 76-86). Returns
the emitted frame and the new smoothing state. -/
noncomputable def emitFrame (d : List ℤ) (sens s : ℝ) (st : SmoothState) :
    Frame × SmoothState :=
  let rmsV : FV :=
    if d.any (fun x => decide (x ≠ 0)) then
      fvAdd (fvMul st.prevVol s) (fvMul (instVol d sens) (1 - s))
    else st.prevVol
  let inst := rfftMag (normData d)
  let newPrev := blendList s sens (resizePrev inst st.prevFft) inst
  let fftData := newPrev.map nanToNum
  ({ spectrum := ((fftData.drop 1).take 99).map nanToNum,
     bass := nanToNum (fvMean ((fftData.drop 1).take 19)),
     mids := nanToNum (fvMean ((fftData.drop 20).take 80)),
     highs := nanToNum (fvMean (fftData.drop 100)),
     volume := nanToNum rmsV },
   { prevFft := newPrev, prevVol := rmsV })

/-- A full ingest cycle: nothing is computed or emitted on an empty read. -/
noncomputable def ingest (d : List ℤ) (sens s : ℝ) (st : SmoothState) :
    Option Frame × SmoothState :=
  if d.isEmpty then (none, st)
  else (some (emitFrame d sens s st).1, (emitFrame d sens s st).2)

/-- Initial smoothing state (lines 26-29): `prev_fft = zeros(1025)` (for the
2048-sample chunk size), `prev_volume = 0`. -/
def initSmooth : SmoothState :=
  { prevFft := List.replicate 1025 (some 0), prevVol := some 0 }

/-- The sanitized smoothed spectrum `fft_data` of a cycle, reconstructed
from the stored state (`fft_data = nan_to_num(prev_fft)` after line 73). -/
noncomputable def fftDataOf (d : List ℤ) (sens s : ℝ) (st : SmoothState) : List FV :=
  ((emitFrame d sens s st).2.prevFft).map nanToNum

/-- Stated from the claim's words, for comparison with `instVol`: the RMS of
the samples normalized to [-1, 1] by dividing by 32768, the squaring
performed in wrapping 16-bit arithmetic before normalization. -/
noncomputable def specRms (d : List ℤ) : ℝ :=
  Real.sqrt ((d.map (fun x => ((wrap16 (x * x) : ℤ) : ℝ) / 32768 ^ 2)).sum
    / (d.length : ℝ))

/-! ### Helper lemmas about the beat tracker -/

theorem updatePulse_isBeat (s : BeatState α) : (updatePulse s).isBeat = s.isBeat := by
  simp only [updatePulse]; split_ifs <;> rfl

theorem updatePulse_cooldown (s : BeatState α) : (updatePulse s).cooldown = s.cooldown := by
  simp only [updatePulse]; split_ifs <;> rfl

theorem updatePulse_history (s : BeatState α) : (updatePulse s).history = s.history := by
  simp only [updatePulse]; split_ifs <;> rfl

theorem cooldownPhase_isBeat (s : BeatState α) : (cooldownPhase s).isBeat = s.isBeat := by
  simp only [cooldownPhase]; split_ifs <;> rfl

theorem cooldownPhase_history (s : BeatState α) : (cooldownPhase s).history = s.history := by
  simp only [cooldownPhase]; split_ifs <;> rfl

theorem detectPhase_history (s : BeatState α) (bass : α) :
    (detectPhase s bass).history = trimHist (s.history ++ [bass]) := by
  simp only [detectPhase]; split_ifs <;> rfl

theorem detectBeat_isBeat (s : BeatState α) (bass : α) :
    (detectBeat s bass).isBeat = (detectPhase s bass).isBeat := by
  simp [detectBeat, cooldownPhase_isBeat]

theorem detectBeat_history (s : BeatState α) (bass : α) :
    (detectBeat s bass).history = trimHist (s.history ++ [bass]) := by
  simp [detectBeat, cooldownPhase_history, detectPhase_history]

theorem engineStep_isBeat (s : BeatState α) (bass : α) :
    (engineStep s bass).isBeat = (detectPhase s bass).isBeat := by
  simp [engineStep, updatePulse_isBeat, detectBeat_isBeat]

theorem engineStep_history (s : BeatState α) (bass : α) :
    (engineStep s bass).history = trimHist (s.history ++ [bass]) := by
  simp [engineStep, updatePulse_history, detectBeat_history]

theorem engineStep_cooldown (s : BeatState α) (bass : α) :
    (engineStep s bass).cooldown = (cooldownPhase (detectPhase s bass)).cooldown := by
  simp [engineStep, detectBeat, updatePulse_cooldown]

theorem trimHist_length_le (l : List α) (h : l.length ≤ 31) :
    (trimHist l).length ≤ 30 := by
  unfold trimHist
  split_ifs with h1
  · simp only [List.length_tail]; omega
  · omega

theorem trimHist_append_length_ge (l : List α) (b : α) :
    l.length ≤ (trimHist (l ++ [b])).length := by
  unfold trimHist
  split_ifs with h1
  · simp only [List.length_tail, List.length_append, List.length_singleton]; omega
  · simp only [List.length_append, List.length_singleton]; omega

theorem detectPhase_isBeat_iff (s : BeatState α) (bass : α)
    (h : 5 < (trimHist (s.history ++ [bass])).length) :
    (detectPhase s bass).isBeat = true ↔
      (bass > (trimHist (s.history ++ [bass])).sum
                / ((trimHist (s.history ++ [bass])).length : α) * (3 / 2)
        ∧ bass > s.prevBass ∧ s.cooldown ≤ 0) := by
  simp only [detectPhase, if_pos h]
  split_ifs with hc h2
  · exact iff_of_true rfl hc
  · exact iff_of_true rfl hc
  · exact iff_of_false (by simp) hc

theorem detectPhase_beat_cooldown (s : BeatState α) (bass : α)
    (hbeat : (detectPhase s bass).isBeat = true)
    (h : 5 < (trimHist (s.history ++ [bass])).length) :
    (detectPhase s bass).cooldown = 10 := by
  simp only [detectPhase, if_pos h] at hbeat ⊢
  split_ifs at hbeat ⊢ with hc h2
  · rfl
  · rfl

theorem detectPhase_cooling (s : BeatState α) (bass : α)
    (hc : 0 < s.cooldown) (h : 5 < (trimHist (s.history ++ [bass])).length) :
    (detectPhase s bass).isBeat = false ∧ (detectPhase s bass).cooldown = s.cooldown := by
  simp only [detectPhase, if_pos h]
  have : ¬ (bass > (trimHist (s.history ++ [bass])).sum
              / ((trimHist (s.history ++ [bass])).length : α) * (3 / 2)
            ∧ bass > s.prevBass ∧ s.cooldown ≤ 0) := by
    rintro ⟨-, -, h3⟩; omega
  rw [if_neg this]
  exact ⟨rfl, rfl⟩

theorem engineStep_cooling (s : BeatState α) (b : α)
    (hc : 0 < s.cooldown) (hh : 5 < s.history.length) :
    (engineStep s b).isBeat = false ∧ (engineStep s b).cooldown = s.cooldown - 1 ∧
      5 < (engineStep s b).history.length := by
  have h5 : 5 < (trimHist (s.history ++ [b])).length :=
    lt_of_lt_of_le hh (trimHist_append_length_ge s.history b)
  obtain ⟨h1, h2⟩ := detectPhase_cooling s b hc h5
  refine ⟨by rw [engineStep_isBeat]; exact h1, ?_, ?_⟩
  · rw [engineStep_cooldown]
    simp only [cooldownPhase, h2, if_pos hc]
  · rw [engineStep_history]; exact h5

theorem no_beat_while_cooling (bs : List α) (s : BeatState α)
    (hh : 5 < s.history.length) (hc : (bs.length : ℤ) ≤ s.cooldown) :
    ∀ t ∈ runStates s bs, t.isBeat = false := by
  induction bs generalizing s with
  | nil => simp [runStates]
  | cons b bs ih =>
    have hc0 : 0 < s.cooldown := by
      simp only [List.length_cons] at hc; push_cast at hc; omega
    obtain ⟨h1, h2, h3⟩ := engineStep_cooling s b hc0 hh
    intro t ht
    simp only [runStates, List.mem_cons] at ht
    rcases ht with rfl | ht
    · exact h1
    · refine ih (engineStep s b) h3 ?_ t ht
      rw [h2]
      simp only [List.length_cons] at hc; push_cast at hc ⊢; omega

/-! ### Helper lemmas about the audio pipeline -/

theorem nanToNum_some (x : ℝ) : nanToNum (some x) = some x := rfl

theorem nanToNum_isSome (v : FV) : (nanToNum v).isSome = true := rfl

theorem map_nanToNum_isSome (l : List FV) : ∀ v ∈ l.map nanToNum, v.isSome = true := by
  intro v hv
  rcases List.mem_map.mp hv with ⟨u, -, rfl⟩
  rfl

theorem map_nanToNum_of_isSome (l : List FV) (h : ∀ v ∈ l, v.isSome = true) :
    l.map nanToNum = l := by
  induction l with
  | nil => rfl
  | cons a l ih =>
    rcases a with - | x
    · simpa using h none (by simp)
    · simp only [List.map_cons, nanToNum_some]
      rw [ih (fun v hv => h v (List.mem_cons_of_mem _ hv))]

theorem blendList_isSome (s sens : ℝ) (prev : List FV) (inst : List ℝ)
    (h : ∀ v ∈ prev, v.isSome = true) :
    ∀ v ∈ blendList s sens prev inst, v.isSome = true := by
  induction prev generalizing inst with
  | nil => simp [blendList]
  | cons p prev ih =>
    cases inst with
    | nil => simp [blendList]
    | cons x inst =>
      intro v hv
      simp only [blendList, List.zipWith_cons_cons, List.mem_cons] at hv
      rcases hv with rfl | hv
      · have hp := h p (by simp)
        rcases p with - | a
        · simp at hp
        · rfl
      · exact ih inst (fun u hu => h u (List.mem_cons_of_mem _ hu)) v hv

theorem fvMean_eval (l : List FV) (hne : l ≠ []) (h : ∀ v ∈ l, v.isSome = true) :
    fvMean l = some ((l.map (fun v => v.getD 0)).sum / (l.length : ℝ)) := by
  have h1 : l.isEmpty = false := by
    cases l with
    | nil => exact absurd rfl hne
    | cons a l => rfl
  have h2 : l.any (fun v => v.isNone) = false := by
    by_contra hcon
    rw [Bool.not_eq_false, List.any_eq_true] at hcon
    rcases hcon with ⟨v, hv, hnone⟩
    have hs := h v hv
    rcases v with - | x
    · simp at hs
    · simp at hnone
  unfold fvMean
  rw [h1, h2]
  simp

theorem rfftMag_length (x : List ℝ) : (rfftMag x).length = x.length / 2 + 1 := by
  simp [rfftMag]

theorem normData_length (d : List ℤ) : (normData d).length = d.length := by
  unfold normData
  exact List.length_map _ _

theorem resizePrev_length (inst : List ℝ) (prev : List FV) :
    (resizePrev inst prev).length = inst.length := by
  unfold resizePrev
  split_ifs with h
  · simp
  · exact (not_not.mp h).symm

theorem blendList_length (s sens : ℝ) (prev : List FV) (inst : List ℝ) :
    (blendList s sens prev inst).length = min prev.length inst.length := by
  simp [blendList]

theorem emitFrame_prevFft (d : List ℤ) (sens s : ℝ) (st : SmoothState) :
    (emitFrame d sens s st).2.prevFft
      = blendList s sens (resizePrev (rfftMag (normData d)) st.prevFft)
          (rfftMag (normData d)) := rfl

theorem emitFrame_prevVol (d : List ℤ) (sens s : ℝ) (st : SmoothState) :
    (emitFrame d sens s st).2.prevVol
      = (if d.any (fun x => decide (x ≠ 0)) then
           fvAdd (fvMul st.prevVol s) (fvMul (instVol d sens) (1 - s))
         else st.prevVol) := rfl

theorem emitFrame_fst (d : List ℤ) (sens s : ℝ) (st : SmoothState) :
    (emitFrame d sens s st).1 =
      { spectrum := ((((emitFrame d sens s st).2.prevFft.map nanToNum).drop 1).take 99).map
          nanToNum,
        bass := nanToNum (fvMean ((((emitFrame d sens s st).2.prevFft.map nanToNum).drop 1).take
          19)),
        mids := nanToNum (fvMean ((((emitFrame d sens s st).2.prevFft.map nanToNum).drop 20).take
          80)),
        highs := nanToNum (fvMean (((emitFrame d sens s st).2.prevFft.map nanToNum).drop 100)),
        volume := nanToNum ((emitFrame d sens s st).2.prevVol) } := rfl

theorem emitFrame_fields_finite (d : List ℤ) (sens s : ℝ) (st : SmoothState) :
    (∀ v ∈ (emitFrame d sens s st).1.spectrum, v.isSome = true) ∧
    (emitFrame d sens s st).1.bass.isSome = true ∧
    (emitFrame d sens s st).1.mids.isSome = true ∧
    (emitFrame d sens s st).1.highs.isSome = true ∧
    (emitFrame d sens s st).1.volume.isSome = true :=
  ⟨map_nanToNum_isSome _, rfl, rfl, rfl, rfl⟩


/-- Input buffer of 2048 clipped-maximum-amplitude int16 samples. -/
def clippedBuf : List ℤ := 32767 :: List.replicate 2047 32767

/-! ### Claim theorems about the audio pipeline -/

/-- C2: every value emitted by one ingest cycle — every spectrum element,
the three band energies, and the volume — is finite (not NaN), for every
int16 input buffer and every internal smoothing state. -/
theorem ingest_frame_finite (d : List ℤ) (sens s : ℝ) (st : SmoothState) (f : Frame)
    (h : (ingest d sens s st).1 = some f) :
    (∀ v ∈ f.spectrum, v.isSome = true) ∧ f.bass.isSome = true ∧ f.mids.isSome = true
      ∧ f.highs.isSome = true ∧ f.volume.isSome = true := by
  unfold ingest at h
  split_ifs at h with hd
  have h2 : (emitFrame d sens s st).1 = f := by
    have h3 : some (emitFrame d sens s st).1 = some f := h
    exact Option.some_inj.mp h3
  subst h2
  exact emitFrame_fields_finite d sens s st

theorem ingest_frame_finite_witness :
    (ingest clippedBuf 1 (3/10) initSmooth).1
        = some (emitFrame clippedBuf 1 (3/10) initSmooth).1 ∧
    ((∀ v ∈ (emitFrame clippedBuf 1 (3/10) initSmooth).1.spectrum, v.isSome = true) ∧
      (emitFrame clippedBuf 1 (3/10) initSmooth).1.bass.isSome = true ∧
      (emitFrame clippedBuf 1 (3/10) initSmooth).1.mids.isSome = true ∧
      (emitFrame clippedBuf 1 (3/10) initSmooth).1.highs.isSome = true ∧
      (emitFrame clippedBuf 1 (3/10) initSmooth).1.volume.isSome = true) := by
  have h : (ingest clippedBuf 1 (3/10) initSmooth).1
      = some (emitFrame clippedBuf 1 (3/10) initSmooth).1 := by
    unfold ingest clippedBuf
    rfl
  exact ⟨h, ingest_frame_finite clippedBuf 1 (3/10) initSmooth _ h⟩

/-- C4: when the FFT length matches the stored previous spectrum (the steady
state; otherwise the defensive resize gives an all-zero, hence all-finite,
previous spectrum) and the stored previous spectrum is finite, the newly
stored previous spectrum equals the blend
`prev * smoothing + inst * (1 - smoothing) * sensitivity` with every
non-finite element replaced by 0, and all its elements are finite — the
inductive invariant of the smoothing state. -/
theorem stored_spectrum_sanitized (d : List ℤ) (sens s : ℝ) (st : SmoothState)
    (hlen : (rfftMag (normData d)).length = st.prevFft.length)
    (hfin : ∀ v ∈ st.prevFft, v.isSome = true) :
    (emitFrame d sens s st).2.prevFft
        = (blendList s sens st.prevFft (rfftMag (normData d))).map nanToNum ∧
    ∀ v ∈ (emitFrame d sens s st).2.prevFft, v.isSome = true := by
  have hres : resizePrev (rfftMag (normData d)) st.prevFft = st.prevFft := by
    unfold resizePrev
    rw [if_neg (by omega)]
  have hsome := blendList_isSome s sens st.prevFft (rfftMag (normData d)) hfin
  rw [emitFrame_prevFft, hres]
  exact ⟨(map_nanToNum_of_isSome _ hsome).symm, hsome⟩

theorem stored_spectrum_sanitized_witness :
    (rfftMag (normData [3])).length = (⟨[some 0], some 0⟩ : SmoothState).prevFft.length ∧
    ((emitFrame [3] 1 (3/10) ⟨[some 0], some 0⟩).2.prevFft
        = (blendList (3/10) 1 ([some 0] : List FV) (rfftMag (normData [3]))).map nanToNum ∧
      ∀ v ∈ (emitFrame [3] 1 (3/10) ⟨[some 0], some 0⟩).2.prevFft, v.isSome = true) := by
  have h1 : (rfftMag (normData [3])).length
      = (⟨[some 0], some 0⟩ : SmoothState).prevFft.length := by
    rw [rfftMag_length, normData_length]
    rfl
  have h2 : ∀ v ∈ (⟨[some 0], some 0⟩ : SmoothState).prevFft, v.isSome = true := by
    intro v hv
    simp only [List.mem_singleton] at hv
    rw [hv]; rfl
  exact ⟨h1, stored_spectrum_sanitized [3] 1 (3/10) ⟨[some 0], some 0⟩ h1 h2⟩


theorem sum_map_div_const {β : Type} (l : List β) (f : β → ℝ) (c : ℝ) :
    (l.map (fun x => f x / c)).sum = (l.map f).sum / c := by
  induction l with
  | nil => simp
  | cons a l ih => simp [ih, add_div]

/-- C3 counterexample: for the non-empty, not-all-zero buffer of 2048
samples of value 182, the int16 square wraps to -32412, the mean of squares
is negative, `sqrt` yields NaN, and the cycle emits volume 0 while storing
NaN as the new previous volume — so the emitted volume is NOT the blend
`prev * smoothing + inst * (1 - smoothing)`, and the stored previous volume
differs from the emitted one. -/
theorem volume_formula_cex :
    msqQ (List.replicate 2048 182) < 0 ∧
    (emitFrame (List.replicate 2048 182) 1 (3/10) initSmooth).1.volume = some 0 ∧
    (emitFrame (List.replicate 2048 182) 1 (3/10) initSmooth).2.prevVol = none ∧
    (emitFrame (List.replicate 2048 182) 1 (3/10) initSmooth).2.prevVol
      ≠ (emitFrame (List.replicate 2048 182) 1 (3/10) initSmooth).1.volume := by
  have hw : wrap16 (182 * 182) = -32412 := by decide
  have hmsq : msqQ (List.replicate 2048 182) < 0 := by
    unfold msqQ
    rw [List.map_replicate, hw, List.sum_replicate]
    norm_num
  have hany : (List.replicate 2048 (182:ℤ)).any (fun x => decide (x ≠ 0)) = true := by
    rw [List.any_eq_true]
    exact ⟨182, List.mem_replicate.mpr ⟨by norm_num, rfl⟩, by norm_num⟩
  have hnone : instVol (List.replicate 2048 182) 1 = none := by
    unfold instVol
    rw [if_neg (not_le.mpr hmsq)]
  have hpv : (emitFrame (List.replicate 2048 182) 1 (3/10) initSmooth).2.prevVol = none := by
    rw [emitFrame_prevVol, if_pos hany, hnone]
    rfl
  have hv : (emitFrame (List.replicate 2048 182) 1 (3/10) initSmooth).1.volume = some 0 := by
    have : (emitFrame (List.replicate 2048 182) 1 (3/10) initSmooth).1.volume
        = nanToNum ((emitFrame (List.replicate 2048 182) 1 (3/10) initSmooth).2.prevVol) := rfl
    rw [this, hpv]
    rfl
  refine ⟨hmsq, hv, hpv, ?_⟩
  rw [hpv, hv]
  simp

/-- C3 (amended): for every buffer that is non-empty and not all zero, IF
the int16-wrapped mean of squares is non-negative (no NaN from `sqrt`) and
the stored previous volume is finite, then the emitted volume equals
`prev * smoothing + inst * (1 - smoothing)` with
`inst = sqrt(meanSquare)/32768 * sensitivity`, the same value is stored as
the new previous volume, and `sqrt(meanSquare)/32768` is exactly the RMS of
the samples normalized by dividing by 32768 with the squaring done in
wrapping 16-bit arithmetic. -/
theorem volume_formula (d : List ℤ) (sens s : ℝ) (st : SmoothState) (p : ℝ)
    (hnz : d.any (fun x => decide (x ≠ 0)) = true)
    (hms : 0 ≤ msqQ d)
    (hp : st.prevVol = some p) :
    (emitFrame d sens s st).1.volume
        = some (p * s + Real.sqrt ((msqQ d : ℝ)) / 32768 * sens * (1 - s)) ∧
    (emitFrame d sens s st).2.prevVol
        = some (p * s + Real.sqrt ((msqQ d : ℝ)) / 32768 * sens * (1 - s)) ∧
    Real.sqrt ((msqQ d : ℝ)) / 32768 = specRms d := by
  have hiv : instVol d sens = some (Real.sqrt ((msqQ d : ℝ)) / 32768 * sens) := by
    unfold instVol
    rw [if_pos hms]
  have hpv : (emitFrame d sens s st).2.prevVol
      = some (p * s + Real.sqrt ((msqQ d : ℝ)) / 32768 * sens * (1 - s)) := by
    rw [emitFrame_prevVol, if_pos hnz, hp, hiv]
    rfl
  have hvol : (emitFrame d sens s st).1.volume
      = some (p * s + Real.sqrt ((msqQ d : ℝ)) / 32768 * sens * (1 - s)) := by
    have : (emitFrame d sens s st).1.volume
        = nanToNum ((emitFrame d sens s st).2.prevVol) := rfl
    rw [this, hpv]
    rfl
  refine ⟨hvol, hpv, ?_⟩
  have hdlen : d ≠ [] := by
    intro hnil
    rw [hnil] at hnz
    simp at hnz
  have hcast : ((msqQ d : ℝ))
      = ((d.map (fun x => wrap16 (x * x))).sum : ℝ) / (d.length : ℝ) := by
    unfold msqQ
    rw [Rat.cast_div, Rat.cast_intCast, Rat.cast_natCast]
  unfold specRms
  have hs1 : (d.map (fun x => ((wrap16 (x * x) : ℤ) : ℝ) / 32768 ^ 2)).sum
      = ((d.map (fun x => ((wrap16 (x * x) : ℤ) : ℝ))).sum) / 32768 ^ 2 := by
    rw [← sum_map_div_const d (fun x => ((wrap16 (x * x) : ℤ) : ℝ)) (32768 ^ 2)]
  have hs2 : ((d.map (fun x => wrap16 (x * x))).sum : ℝ)
      = (d.map (fun x => ((wrap16 (x * x) : ℤ) : ℝ))).sum := by
    rw [Int.cast_list_sum, List.map_map]
    rfl
  rw [hs1, ← hs2, div_div, mul_comm, ← div_div, ← hcast,
      Real.sqrt_div (by exact_mod_cast hms), Real.sqrt_sq (by norm_num)]

/-- Input buffer of 2048 samples of value 181, whose int16 square 32761
does not wrap. -/
def smallAmpBuf : List ℤ := List.replicate 2048 181

theorem volume_formula_witness :
    (smallAmpBuf.any (fun x => decide (x ≠ 0)) = true ∧ 0 ≤ msqQ smallAmpBuf ∧
      initSmooth.prevVol = some 0) ∧
    (emitFrame smallAmpBuf 1 (3/10) initSmooth).1.volume
        = some (0 * (3/10) + Real.sqrt ((msqQ smallAmpBuf : ℝ)) / 32768 * 1 * (1 - 3/10)) ∧
    (emitFrame smallAmpBuf 1 (3/10) initSmooth).2.prevVol
        = some (0 * (3/10) + Real.sqrt ((msqQ smallAmpBuf : ℝ)) / 32768 * 1 * (1 - 3/10)) ∧
    Real.sqrt ((msqQ smallAmpBuf : ℝ)) / 32768 = specRms smallAmpBuf := by
  have hany : smallAmpBuf.any (fun x => decide (x ≠ 0)) = true := by
    rw [List.any_eq_true]
    exact ⟨181, List.mem_replicate.mpr ⟨by norm_num, rfl⟩, by norm_num⟩
  have hms : 0 ≤ msqQ smallAmpBuf := by
    have hw : wrap16 (181 * 181) = 32761 := by decide
    unfold msqQ smallAmpBuf
    rw [List.map_replicate, hw, List.sum_replicate]
    norm_num
  exact ⟨⟨hany, hms, rfl⟩,
    volume_formula smallAmpBuf 1 (3/10) initSmooth 0 hany hms rfl⟩


theorem fvMean_eval_pos (l : List FV) (hpos : 0 < l.length)
    (h : ∀ v ∈ l, v.isSome = true) :
    fvMean l = some ((l.map (fun v => v.getD 0)).sum / (l.length : ℝ)) :=
  fvMean_eval l (List.length_pos.mp hpos) h

theorem take_drop_comm {β : Type} (l : List β) (m n : ℕ) :
    (l.take (m + n)).drop m = (l.drop m).take n := by
  induction l generalizing m with
  | nil => simp
  | cons a l ih =>
    cases m with
    | zero => simp
    | succ m =>
      rw [show m + 1 + n = (m + n) + 1 by omega]
      rw [List.take_succ_cons, List.drop_succ_cons, List.drop_succ_cons]
      exact ih m

/-- C8: on a 2048-sample buffer, the emitted bass, mid and high energies are
the arithmetic means of the sanitized smoothed spectrum over the index
ranges [1,20), [20,100) and [100,1025), and the emitted spectrum is the
slice [1,100) of the sanitized smoothed spectrum, of length exactly 99. -/
theorem band_spectrum_derivation (d : List ℤ) (sens s : ℝ) (st : SmoothState)
    (hd : d.length = 2048) :
    (emitFrame d sens s st).1.spectrum = ((fftDataOf d sens s st).take 100).drop 1 ∧
    (emitFrame d sens s st).1.spectrum.length = 99 ∧
    (emitFrame d sens s st).1.bass
        = some (((((fftDataOf d sens s st).take 20).drop 1).map
            (fun v => v.getD 0)).sum / 19) ∧
    (emitFrame d sens s st).1.mids
        = some (((((fftDataOf d sens s st).take 100).drop 20).map
            (fun v => v.getD 0)).sum / 80) ∧
    (emitFrame d sens s st).1.highs
        = some ((((fftDataOf d sens s st).drop 100).map
            (fun v => v.getD 0)).sum / 925) := by
  have hFs : ∀ v ∈ fftDataOf d sens s st, v.isSome = true := map_nanToNum_isSome _
  have hlen : (fftDataOf d sens s st).length = 1025 := by
    unfold fftDataOf
    rw [List.length_map, emitFrame_prevFft, blendList_length, resizePrev_length,
        min_self, rfftMag_length, normData_length, hd]
  have hsub1 : ∀ v ∈ ((fftDataOf d sens s st).drop 1).take 19, v.isSome = true :=
    fun v hv => hFs v (List.drop_subset _ _ (List.take_subset _ _ hv))
  have hsub20 : ∀ v ∈ ((fftDataOf d sens s st).drop 20).take 80, v.isSome = true :=
    fun v hv => hFs v (List.drop_subset _ _ (List.take_subset _ _ hv))
  have hsub100 : ∀ v ∈ (fftDataOf d sens s st).drop 100, v.isSome = true :=
    fun v hv => hFs v (List.drop_subset _ _ hv)
  have hsub99 : ∀ v ∈ ((fftDataOf d sens s st).drop 1).take 99, v.isSome = true :=
    fun v hv => hFs v (List.drop_subset _ _ (List.take_subset _ _ hv))
  have hl19 : (((fftDataOf d sens s st).drop 1).take 19).length = 19 := by
    rw [List.length_take, List.length_drop, hlen]
    omega
  have hl80 : (((fftDataOf d sens s st).drop 20).take 80).length = 80 := by
    rw [List.length_take, List.length_drop, hlen]
    omega
  have hl925 : ((fftDataOf d sens s st).drop 100).length = 925 := by
    rw [List.length_drop, hlen]
  have hspec : (emitFrame d sens s st).1.spectrum
      = ((fftDataOf d sens s st).drop 1).take 99 := by
    have h0 : (emitFrame d sens s st).1.spectrum
        = (((fftDataOf d sens s st).drop 1).take 99).map nanToNum := rfl
    rw [h0, map_nanToNum_of_isSome _ hsub99]
  refine ⟨?_, ?_, ?_, ?_, ?_⟩
  · rw [hspec, show (100:ℕ) = 1 + 99 from rfl, take_drop_comm]
  · rw [hspec, List.length_take, List.length_drop, hlen]
    omega
  · have h0 : (emitFrame d sens s st).1.bass
        = nanToNum (fvMean (((fftDataOf d sens s st).drop 1).take 19)) := rfl
    rw [h0, fvMean_eval_pos _ (by rw [hl19]; norm_num) hsub1, nanToNum_some, hl19,
        show (20:ℕ) = 1 + 19 from rfl, take_drop_comm]
    norm_num
  · have h0 : (emitFrame d sens s st).1.mids
        = nanToNum (fvMean (((fftDataOf d sens s st).drop 20).take 80)) := rfl
    rw [h0, fvMean_eval_pos _ (by rw [hl80]; norm_num) hsub20, nanToNum_some, hl80,
        show (100:ℕ) = 20 + 80 from rfl, take_drop_comm]
    norm_num
  · have h0 : (emitFrame d sens s st).1.highs
        = nanToNum (fvMean ((fftDataOf d sens s st).drop 100)) := rfl
    rw [h0, fvMean_eval_pos _ (by rw [hl925]; norm_num) hsub100, nanToNum_some, hl925]
    norm_num

/-- Input buffer of 2048 zero samples. -/
def zeroBuf : List ℤ := List.replicate 2048 0

theorem band_spectrum_derivation_witness :
    zeroBuf.length = 2048 ∧
    ((emitFrame zeroBuf 1 (3/10) initSmooth).1.spectrum
        = ((fftDataOf zeroBuf 1 (3/10) initSmooth).take 100).drop 1 ∧
      (emitFrame zeroBuf 1 (3/10) initSmooth).1.spectrum.length = 99) := by
  have hd : zeroBuf.length = 2048 := by
    unfold zeroBuf
    exact List.length_replicate _ _
  obtain ⟨h1, h2, -, -, -⟩ := band_spectrum_derivation zeroBuf 1 (3/10) initSmooth hd
  exact ⟨hd, h1, h2⟩


theorem getD_replicate_zero (m n : ℕ) : (List.replicate m (0:ℝ)).getD n 0 = 0 := by
  rcases Nat.lt_or_ge n m with h | h
  · rw [List.getD_eq_getElem _ _ (by simpa using h)]
    simp
  · rw [List.getD_eq_default _ _ (by simpa using h)]

theorem dftCoeff_zeros (m k : ℕ) : dftCoeff (List.replicate m 0) k = 0 := by
  unfold dftCoeff
  apply Finset.sum_eq_zero
  intro n hn
  rw [getD_replicate_zero]
  simp

theorem rfftMag_zeros (m : ℕ) :
    rfftMag (List.replicate m 0) = List.replicate (m / 2 + 1) 0 := by
  unfold rfftMag
  rw [List.length_replicate, List.eq_replicate_iff]
  refine ⟨by simp, ?_⟩
  intro b hb
  rcases List.mem_map.mp hb with ⟨k, -, rfl⟩
  rw [dftCoeff_zeros]
  simp

theorem zipWith_replicate_same {β γ δ : Type} (f : β → γ → δ) (n : ℕ) (a : β) (b : γ) :
    List.zipWith f (List.replicate n a) (List.replicate n b) = List.replicate n (f a b) := by
  induction n with
  | zero => rfl
  | succ n ih => simp [List.replicate_succ, ih]

theorem fvMean_replicate_some_zero (n : ℕ) (hn : n ≠ 0) :
    fvMean (List.replicate n (some 0)) = some 0 := by
  rw [fvMean_eval_pos _ (by simpa using Nat.pos_of_ne_zero hn)
    (by intro v hv; rw [List.eq_of_mem_replicate hv]; rfl)]
  rw [List.map_replicate, List.sum_replicate]
  simp

/-- C7: ingesting a buffer of 2048 zero samples from the initial state emits
a frame with an all-zero 99-element spectrum, zero band energies, and volume
0 (the reused previous volume), and feeding bass energy 0 to the beat/pulse
tracker in its initial state reports no beat and pulse exactly 1.0. -/
theorem zero_input_scenario :
    (ingest zeroBuf 1 (3/10) initSmooth).1
      = some { spectrum := List.replicate 99 (some 0), bass := some 0, mids := some 0,
               highs := some 0, volume := some 0 } ∧
    (ingest zeroBuf 1 (3/10) initSmooth).2.prevVol = some 0 ∧
    (engineStep (initBeat ℝ) 0).isBeat = false ∧
    (engineStep (initBeat ℝ) 0).currentPulse = 1 := by
  have hnorm : normData zeroBuf = List.replicate 2048 (0:ℝ) := by
    unfold normData zeroBuf
    rw [List.map_replicate]
    norm_num
  have hinst : rfftMag (normData zeroBuf) = List.replicate 1025 (0:ℝ) := by
    rw [hnorm, rfftMag_zeros]
  have hprev : (emitFrame zeroBuf 1 (3/10) initSmooth).2.prevFft
      = List.replicate 1025 (some 0) := by
    rw [emitFrame_prevFft, hinst]
    unfold initSmooth resizePrev blendList
    rw [if_neg (by rw [List.length_replicate, List.length_replicate]; omega)]
    rw [zipWith_replicate_same]
    have : fvBlend (3/10) 1 (some 0) 0 = some 0 := by
      unfold fvBlend fvMul fvAdd
      norm_num
    rw [this]
  have hF : (emitFrame zeroBuf 1 (3/10) initSmooth).2.prevFft.map nanToNum
      = List.replicate 1025 (some 0) := by
    rw [hprev, List.map_replicate]
    rfl
  have hany : zeroBuf.any (fun x => decide (x ≠ 0)) = false := by
    rw [List.any_eq_false]
    intro x hx
    unfold zeroBuf at hx
    rw [List.eq_of_mem_replicate hx]
    simp
  have hvol : (emitFrame zeroBuf 1 (3/10) initSmooth).2.prevVol = some 0 := by
    rw [emitFrame_prevVol, if_neg (by rw [hany]; simp)]
    rfl
  have hframe : (emitFrame zeroBuf 1 (3/10) initSmooth).1
      = { spectrum := List.replicate 99 (some 0), bass := some 0, mids := some 0,
          highs := some 0, volume := some 0 } := by
    rw [emitFrame_fst, hF, hvol]
    simp only [List.drop_replicate, List.take_replicate, List.map_replicate, Frame.mk.injEq]
    refine ⟨?_, ?_, ?_, ?_, rfl⟩
    · rw [show min 99 (1025 - 1) = 99 from by omega]
      rfl
    · rw [show min 19 (1025 - 1) = 19 from by omega,
          fvMean_replicate_some_zero 19 (by norm_num)]
      rfl
    · rw [show min 80 (1025 - 20) = 80 from by omega,
          fvMean_replicate_some_zero 80 (by norm_num)]
      rfl
    · rw [show (1025 - 100 : ℕ) = 925 from by omega,
          fvMean_replicate_some_zero 925 (by norm_num)]
      rfl
  have hbeat : (engineStep (initBeat ℝ) 0).isBeat = false := by
    rw [engineStep_isBeat]
    unfold detectPhase initBeat trimHist
    norm_num
  have hpulse : (engineStep (initBeat ℝ) 0).currentPulse = 1 := by
    norm_num [engineStep, updatePulse, detectBeat, cooldownPhase, detectPhase, trimHist,
      initBeat, abs_lt]
  have hne : zeroBuf.isEmpty = false := by
    unfold zeroBuf
    simp
  refine ⟨?_, ?_, hbeat, hpulse⟩
  · unfold ingest
    rw [if_neg (by rw [hne]; simp)]
    show some (emitFrame zeroBuf 1 (3/10) initSmooth).1 = _
    rw [hframe]
  · unfold ingest
    rw [if_neg (by rw [hne]; simp)]
    exact hvol

/-! ### Claim theorems about the beat tracker -/

/-- C5: whenever the bass history, after appending the current frame's bass
energy (and trimming to capacity), has more than 5 samples, `detect_beat`
reports a beat if and only if the bass energy exceeds 1.5 times the mean of
the history, exceeds the previous frame's bass energy, and the cooldown
counter is not positive. -/
theorem beat_trigger_iff (s : BeatState ℚ) (bass : ℚ)
    (h : 5 < (trimHist (s.history ++ [bass])).length) :
    (detectBeat s bass).isBeat = true ↔
      (bass > (trimHist (s.history ++ [bass])).sum
                / ((trimHist (s.history ++ [bass])).length : ℚ) * (3 / 2)
        ∧ bass > s.prevBass ∧ s.cooldown ≤ 0) := by
  rw [detectBeat_isBeat]
  exact detectPhase_isBeat_iff s bass h

theorem beat_trigger_iff_witness :
    5 < (trimHist (flatHistState.history ++ [8/5])).length ∧
    (detectBeat flatHistState (8/5)).isBeat = true := by
  have h : 5 < (trimHist (flatHistState.history ++ [(8:ℚ)/5])).length := by
    norm_num [flatHistState, trimHist]
  refine ⟨h, (beat_trigger_iff flatHistState (8/5) h).mpr ?_⟩
  norm_num [flatHistState, trimHist, List.sum_append, List.sum_replicate, nsmul_eq_mul]

/-- C9: one full beat/pulse update step keeps the cooldown counter
non-negative and the bass history length at most 30. -/
theorem beat_state_bounds (s : BeatState ℚ) (b : ℚ)
    (h1 : 0 ≤ s.cooldown) (h2 : s.history.length ≤ 30) :
    0 ≤ (engineStep s b).cooldown ∧ (engineStep s b).history.length ≤ 30 := by
  constructor
  · rw [engineStep_cooldown]
    have hd : (detectPhase s b).cooldown = 10 ∨ (detectPhase s b).cooldown = s.cooldown := by
      simp only [detectPhase]
      split_ifs <;> simp
    simp only [cooldownPhase]
    split_ifs with hpos
    · show 0 ≤ (detectPhase s b).cooldown - 1
      omega
    · rcases hd with h | h <;> omega
  · rw [engineStep_history]
    refine trimHist_length_le _ ?_
    simp only [List.length_append, List.length_singleton]; omega

theorem beat_state_bounds_witness :
    0 ≤ (engineStep flatHistState (8/5)).cooldown ∧
    (engineStep flatHistState (8/5)).history.length ≤ 30 :=
  beat_state_bounds flatHistState (8/5) (by norm_num [flatHistState])
    (by norm_num [flatHistState])

/-- C6: beat debounce — if an update step reports a beat (with the
history past the 5-sample threshold), then none of the following 9 update
steps (the window during which the cooldown counter, reset to 10 and
immediately decremented to 9 on the beat frame, stays positive) reports a
beat. -/
theorem beat_debounce (s : BeatState ℚ) (b : ℚ) (bs : List ℚ)
    (h5 : 5 < (trimHist (s.history ++ [b])).length)
    (hbeat : (engineStep s b).isBeat = true)
    (hlen : bs.length ≤ 9) :
    ∀ t ∈ runStates (engineStep s b) bs, t.isBeat = false := by
  have hdb : (detectPhase s b).isBeat = true := by rwa [engineStep_isBeat] at hbeat
  have hcool : (engineStep s b).cooldown = 9 := by
    rw [engineStep_cooldown]
    have h10 := detectPhase_beat_cooldown s b hdb h5
    simp only [cooldownPhase, h10]
    norm_num
  have hh : 5 < (engineStep s b).history.length := by
    rw [engineStep_history]; exact h5
  refine no_beat_while_cooling bs _ hh ?_
  rw [hcool]
  exact_mod_cast le_trans (Nat.cast_le.mpr hlen) (by norm_num)

theorem beat_debounce_witness :
    (engineStep flatHistState (8/5)).isBeat = true ∧
    ∀ t ∈ runStates (engineStep flatHistState (8/5)) [1, 1, 8/5], t.isBeat = false := by
  have hb : (engineStep flatHistState (8/5)).isBeat = true := by
    norm_num [engineStep, updatePulse, detectBeat, cooldownPhase, detectPhase, trimHist,
      flatHistState, List.sum_append, List.sum_replicate, nsmul_eq_mul, abs_lt]
  exact ⟨hb, beat_debounce flatHistState (8/5) [1, 1, 8/5]
    (by norm_num [flatHistState, trimHist]) hb (by norm_num)⟩

/-- C10: when the pulse system is disabled, `update_pulse` sets
`current_pulse` to exactly 1.0 and leaves every other field (in particular
`target_pulse`) unchanged; consequently, after re-enabling, the next update
resumes the attack toward the stale pre-disable target instead of a reset
target of 1.0. -/
theorem pulse_disabled_behavior (s : BeatState ℚ)
    (hoff : s.enablePulse = false)
    (ht : 1 < s.targetPulse)
    (ha : 1 / 20 ≤ (s.targetPulse - 1) * s.pulseAttack) :
    updatePulse s = { s with currentPulse := 1 } ∧
    (updatePulse { s with currentPulse := 1, enablePulse := true }).currentPulse
        = 1 + (s.targetPulse - 1) * s.pulseAttack ∧
    (updatePulse { s with currentPulse := 1, enablePulse := true }).targetPulse
        = s.targetPulse := by
  refine ⟨by simp [updatePulse, hoff], ?_, ?_⟩ <;>
  · simp only [updatePulse, if_pos rfl]
    rw [if_pos ht]
    have habs : ¬ |1 + (s.targetPulse - 1) * s.pulseAttack - 1| < 1 / 20 := by
      have hnn : (0:ℚ) ≤ (s.targetPulse - 1) * s.pulseAttack :=
        le_trans (by norm_num) ha
      rw [show (1:ℚ) + (s.targetPulse - 1) * s.pulseAttack - 1
            = (s.targetPulse - 1) * s.pulseAttack by ring,
          abs_of_nonneg hnn]
      exact not_lt.mpr ha
    rw [if_neg habs]
    simp

theorem pulse_disabled_behavior_witness :
    updatePulse { flatHistState with enablePulse := false, targetPulse := 9/5 }
        = { flatHistState with enablePulse := false, targetPulse := 9/5, currentPulse := 1 } ∧
    (updatePulse { flatHistState with targetPulse := 9/5, currentPulse := 1 }).currentPulse
        = 1 + (9/5 - 1) * (1/10) ∧
    (updatePulse { flatHistState with targetPulse := 9/5, currentPulse := 1 }).targetPulse
        = 9/5 := by
  have := pulse_disabled_behavior
    { flatHistState with enablePulse := false, targetPulse := 9/5 }
    rfl (by norm_num [flatHistState]) (by norm_num [flatHistState])
  simpa [flatHistState] using this

theorem pulse_iter_closed_form (n : ℕ) :
    (updatePulse^[n] postBeatState).currentPulse = 9/5 - (4/5) * (9/10)^n ∧
    (updatePulse^[n] postBeatState).targetPulse = 9/5 ∧
    (updatePulse^[n] postBeatState).enablePulse = true ∧
    (updatePulse^[n] postBeatState).pulseAttack = 1/10 := by
  induction n with
  | zero => norm_num [postBeatState]
  | succ n ih =>
    obtain ⟨hc, ht, he, ha⟩ := ih
    rw [Function.iterate_succ_apply']
    set t := updatePulse^[n] postBeatState with hdef
    have hq1 : ((9:ℚ)/10)^n ≤ 1 := by
      apply pow_le_one₀ <;> norm_num
    have hq0 : (0:ℚ) < (9/10)^n := pow_pos (by norm_num) n
    have hlt : t.currentPulse < t.targetPulse := by rw [hc, ht]; nlinarith
    have hstep : t.currentPulse + (t.targetPulse - t.currentPulse) * t.pulseAttack
        = 9/5 - (4/5) * (9/10)^(n+1) := by rw [hc, ht, ha]; ring
    have hnosnap : ¬ |t.currentPulse + (t.targetPulse - t.currentPulse) * t.pulseAttack - 1|
        < 1/20 := by
      rw [hstep]
      have hle : ((9:ℚ)/10)^(n+1) ≤ 9/10 := by
        calc ((9:ℚ)/10)^(n+1) = (9/10)^n * (9/10) := by ring
        _ ≤ 1 * (9/10) := by nlinarith
        _ = 9/10 := by ring
      have hpos : (0:ℚ) < (9/10)^(n+1) := pow_pos (by norm_num) _
      rw [abs_of_nonneg (by nlinarith)]
      intro hcon; nlinarith
    simp only [updatePulse, he, if_true, if_pos hlt, if_neg hnosnap]
    exact ⟨by rw [hstep], ht, by simp [he], ha⟩

/-- C1 (code bug): from the post-beat state (`current_pulse = 1.0`,
`target_pulse = 1.8`, attack 0.1, decay 0.2) with no further beats, repeated
`update_pulse` calls make `current_pulse` strictly INCREASE toward 1.8
(`current_pulse` after n+1 steps is `1.8 - 0.8*(9/10)^(n+1)`), staying at or
above 1.05 and never returning to 1.0 — because `target_pulse` is never reset
after a beat, the decay branch is unreachable, contradicting the claimed
(and commented: "Decay phase", "Reset target if we've mostly decayed")
monotone decay back to exactly 1.0. -/
theorem pulse_never_decays_to_rest (n : ℕ) :
    (updatePulse^[n] postBeatState).currentPulse
        < (updatePulse^[n+1] postBeatState).currentPulse ∧
    21/20 ≤ (updatePulse^[n+1] postBeatState).currentPulse ∧
    (updatePulse^[n+1] postBeatState).currentPulse ≠ 1 := by
  obtain ⟨hc, -, -, -⟩ := pulse_iter_closed_form n
  obtain ⟨hc', -, -, -⟩ := pulse_iter_closed_form (n+1)
  rw [hc, hc']
  have hq0 : (0:ℚ) < (9/10)^n := pow_pos (by norm_num) n
  have hq1 : ((9:ℚ)/10)^n ≤ 1 := by apply pow_le_one₀ <;> norm_num
  have hsucc : ((9:ℚ)/10)^(n+1) = (9/10)^n * (9/10) := by ring
  refine ⟨by nlinarith, by nlinarith, ?_⟩
  intro hcon
  rw [hsucc] at hcon
  nlinarith

end Kaleidoscope
